import Mathlib

/-!
Verification of the SeamAwareDecimater decimation engine against its
specification.  The development shallowly embeds the code of
`src/decimate.cpp` (the functions `clean_mesh`,
`prepare_decimate_halfedge_5d`, `collapse_one_edge`,
`decimate_halfedge_5d`) and the driver `main` / `decimate_down_to`
(`src/unnamed/part_000`).  Meshes are lists of points and corner triples;
machine doubles that can hold `+infinity` are modelled by an explicit
`Coord`/`Cost` type with an infinity constructor; the parts of the system
that live outside `src/` (the collapse executor `collapse_edge_with_uv`,
the cost oracle, and the igl utilities `remove_unreferenced`,
`connect_boundary_to_infinity`, `edge_flaps`) are modelled from their
documented input/output behaviour in the specification and are marked as
such below.
-/

/-- A double-precision coordinate: either a finite value (modelled as a
rational) or `+infinity`, which the code uses for the artificial boundary
vertex. -/
inductive Coord where
  | fin (q : ℚ)
  | inf
deriving DecidableEq, Repr

/-- A 3D vertex position (a row of `V`). -/
abbrev Point3 := Coord × Coord × Coord

/-- A 2D texture coordinate (a row of `TC`). -/
abbrev Point2 := Coord × Coord

/-- A face row: the three corner indices of one triangle (a row of `F` or
`FT`). -/
abbrev Tri := ℕ × ℕ × ℕ

/-- An edge-collapse cost as stored in the priority queue: a finite double
or `+infinity` ("forbidden"). -/
inductive Cost where
  | fin (q : ℚ)
  | inf
deriving DecidableEq, Repr

/-- Pairwise minimum of two coordinates, with `inf` as the largest
element; used to model the Eigen `minCoeff()` call on a vertex row. -/
def cmin : Coord → Coord → Coord
  | Coord.inf, y => y
  | Coord.fin a, Coord.inf => Coord.fin a
  | Coord.fin a, Coord.fin b => Coord.fin (min a b)

/-- `V.row(i).minCoeff()` for a 3-column row: the minimum of the three
coordinates. -/
def minCoeff3 (p : Point3) : Coord := cmin p.1 (cmin p.2.1 p.2.2)

/-- The check `V.row(V.rows()-1).minCoeff() == infinity` from
`prepare_decimate_halfedge_5d` (decimate.cpp line 102): the last vertex
row has all coordinates at `+infinity`. -/
def hasInfinityVertex (V : List Point3) : Bool :=
  match V.getLast? with
  | some p => minCoeff3 p == Coord.inf
  | none => false

/-- All directed edges of a face list: each triangle `(a,b,c)` contributes
`(a,b)`, `(b,c)`, `(c,a)`. -/
def dirEdges (F : List Tri) : List (ℕ × ℕ) :=
  F.flatMap (fun t => [(t.1, t.2.1), (t.2.1, t.2.2), (t.2.2, t.1)])

/-- Directed boundary edges: directed edges whose reverse appears in no
face. -/
def boundaryDirEdges (F : List Tri) : List (ℕ × ℕ) :=
  (dirEdges F).filter (fun e => ! (dirEdges F).contains (e.2, e.1))

/-- Modelled from the spec: `igl::connect_boundary_to_infinity` (an
external collaborator, not under `src/`).  Per the spec (section 4.1) and
the code comments in `prepare_decimate_halfedge_5d`, it augments a mesh
that has a boundary with a single artificial vertex whose coordinates are
all `+infinity` and one virtual triangle per boundary edge, each virtual
triangle carrying the infinity vertex at corner 2; a mesh without
boundary is returned unchanged. -/
def connect_boundary_to_infinity (V : List Point3) (F : List Tri) :
    List Point3 × List Tri :=
  let b := boundaryDirEdges F
  if b.isEmpty then (V, F)
  else (V ++ [(Coord.inf, Coord.inf, Coord.inf)],
        F ++ b.map (fun e => (e.2, e.1, V.length)))

/-- The target-adjustment step of `prepare_decimate_halfedge_5d`
(decimate.cpp lines 101-103): after connecting the boundary to infinity,
if the last vertex row is the artificial infinity vertex the target
number of vertices is incremented by one. -/
def prepare_target_num_vertices (OV : List Point3) (OF : List Tri)
    (target : ℤ) : ℤ :=
  if hasInfinityVertex (connect_boundary_to_infinity OV OF).1 then target + 1
  else target

/-- Corner `i` of a face row, as `F(f, i)` for `i < 3`. -/
def corner (t : Tri) (i : ℕ) : ℕ :=
  if i = 0 then t.1 else if i = 1 then t.2.1 else t.2.2

/-- The opposite-face lookup of `prepare_decimate_halfedge_5d`
(decimate.cpp lines 140-151): the edge across from the infinity corner
(`fi_vinf = 2`) of face `fi` is `EMAP(2 * F.rows() + fi)`, and the
opposite face is the side of `EF` that is not `fi`.  `EMAP` and `EF` come
from the external `igl::edge_flaps` and are taken as inputs. -/
def oppositeFace (EMAP : ℕ → ℕ) (EF : ℕ → ℕ × ℕ) (nFtot fi : ℕ) : ℕ :=
  let e := EMAP (2 * nFtot + fi)
  if (EF e).1 = fi then (EF e).2 else (EF e).1

/-- The FT-row construction of `prepare_decimate_halfedge_5d`
(decimate.cpp lines 152-165) for one virtual infinity face `fi`: find the
first corner `fi_opp_v1` of the opposite face whose position vertex
equals `F(fi, 0)`, let `fi_opp_v2 = (fi_opp_v1 - 1 + 3) % 3 =
(fi_opp_v1 + 2) % 3`, and build the row
`(FT(fi_opp, v1), FT(fi_opp, v2), OTC.rows())`; returns `none` exactly
when the C++ `assert(fi_opp_v1 < 3)` would fail. -/
def infinityFTRow (fopp foppFT fiRow : Tri) (nTC : ℕ) : Option Tri :=
  match (List.range 3).find? (fun k => decide (corner fopp k = corner fiRow 0)) with
  | none => none
  | some v1 => some (corner foppFT v1, corner foppFT ((v1 + 2) % 3), nTC)

/-- The loop of `prepare_decimate_halfedge_5d` (decimate.cpp lines
135-166) that fills in the FT rows of the virtual infinity faces: rows
below `nOF` keep their original FT row, rows from `nOF` up get the row
built by `infinityFTRow` from the opposite real face. -/
def prepare_infinity_FT (F FT : List Tri) (nOF nTC : ℕ)
    (EMAP : ℕ → ℕ) (EF : ℕ → ℕ × ℕ) : List Tri :=
  (List.range F.length).map (fun fi =>
    if fi < nOF then FT.getD fi (0, 0, 0)
    else
      let fopp := oppositeFace EMAP EF F.length fi
      match F.get? fopp, FT.get? fopp, F.get? fi with
      | some fo, some fto, some fiRow =>
          (infinityFTRow fo fto fiRow nTC).getD (0, 0, 0)
      | _, _, _ => (0, 0, 0))

/-- Modelled from the spec: the tombstone test of `clean_mesh`.  The
sentinel `DUV_COLLAPSE_EDGE_NULL` is defined in `collapse_edge_seam.h`,
which is not under `src/`, so its concrete value is taken as the
parameter `nullIdx`; a row is a tombstone when all three corners hold the
sentinel. -/
def tombRow (nullIdx : ℕ) (t : Tri) : Bool :=
  t.1 == nullIdx && t.2.1 == nullIdx && t.2.2 == nullIdx

/-- The indices `f < nF` whose face row survives the `clean_mesh` filter
(decimate.cpp lines 31-46): a row is copied when at least one of its
three `F` corners differs from `DUV_COLLAPSE_EDGE_NULL`. -/
def keptIdx (nullIdx : ℕ) (F : List Tri) (nF : ℕ) : List ℕ :=
  (List.range nF).filter (fun f =>
    match F.get? f with
    | some t => ! tombRow nullIdx t
    | none => false)

/-- The compacted face table `F2` built by `clean_mesh` (decimate.cpp
lines 28-48): the surviving rows of `F`, in order. -/
def F2of (nullIdx : ℕ) (F : List Tri) (nF : ℕ) : List Tri :=
  (keptIdx nullIdx F nF).filterMap (fun f => F.get? f)

/-- The compacted texture face table `FT2` built by `clean_mesh`: the
`FT` rows at the same surviving indices. -/
def FT2of (nullIdx : ℕ) (F FT : List Tri) (nF : ℕ) : List Tri :=
  (keptIdx nullIdx F nF).filterMap (fun f => FT.get? f)

/-- Whether vertex `v` is referenced by some corner of some face in
`Fs`. -/
def refsVert (Fs : List Tri) (v : ℕ) : Bool :=
  Fs.any (fun t => t.1 == v || t.2.1 == v || t.2.2 == v)

/-- The vertices of `0..nV-1` referenced by the face list, in increasing
order. -/
def usedVerts (nV : ℕ) (Fs : List Tri) : List ℕ :=
  (List.range nV).filter (fun v => refsVert Fs v)

/-- Reindex the three corners of a face row through the position of each
old index in the `used` list. -/
def reindexTri (used : List ℕ) (t : Tri) : Tri :=
  (used.indexOf t.1, used.indexOf t.2.1, used.indexOf t.2.2)

/-- Modelled from the spec: `igl::remove_unreferenced` (an external
collaborator, not under `src/`): drop the vertices referenced by no face,
keep the referenced ones in their original order, and rewrite every face
corner to the new index of its vertex. -/
def remove_unreferenced {α : Type} (V : List α) (Fs : List Tri) :
    List α × List Tri :=
  let used := usedVerts V.length Fs
  (used.filterMap (fun v => V.get? v), Fs.map (reindexTri used))

/-- The four output tables of `clean_mesh`. -/
structure CleanResult where
  V_out : List Point3
  F_out : List Tri
  TC_out : List Point2
  FT_out : List Tri
deriving DecidableEq, Repr

/-- `clean_mesh` (decimate.cpp lines 15-53): drop every face row of index
at least `nF` and every tombstone row, then remove unreferenced vertices
from both the position mesh and the texture mesh. -/
def clean_mesh (nullIdx : ℕ) (V : List Point3) (F : List Tri)
    (TC : List Point2) (FT : List Tri) (nF : ℕ) : CleanResult :=
  let p1 := remove_unreferenced V (F2of nullIdx F nF)
  let p2 := remove_unreferenced TC (FT2of nullIdx F FT nF)
  ⟨p1.1, p1.2, p2.1, p2.2⟩

/-- Modelled from the spec: the interface of the collapse machinery that
`decimate.cpp` drives but whose implementation (`collapse_edge_with_uv`
in `collapse_edge_seam.cpp`, and the cost oracle in
`cost_and_placement.cpp`) is not under `src/`.  `σ` is the mutable state
(mesh tables, quadrics, seam set, priority queue); `qEmpty` is
`Q.empty()`, `qMin` is `Q.begin()->first`, and `attempt` is one call of
`collapse_edge_with_uv`, returning the updated state, the edge index `e`
it popped, and whether the collapse succeeded. -/
structure CollapseOracle (σ : Type) where
  qEmpty : σ → Bool
  qMin : σ → Cost
  attempt : σ → σ × ℕ × Bool

/-- The result of `collapse_one_edge`: the final state, the value of the
local variable `e` after the loop (`none` when no pop happened, which in
C++ would leave `e` uninitialized), the success flag, whether the
`assert(false && "Edge collapse no progress...")` fired, and the list of
edges popped, in order. -/
structure COEResult (σ : Type) where
  st : σ
  lastE : Option ℕ
  success : Bool
  aborted : Bool
  pops : List ℕ
deriving DecidableEq, Repr

/-- The retry loop of `collapse_one_edge` (decimate.cpp lines 216-239),
with fuel for termination: break on an empty queue or an infinite minimum
cost; otherwise attempt a collapse; on success stop; on failure abort if
the popped edge equals `prev_e` (which is only updated after the loop),
else retry. -/
def collapse_one_edge {σ : Type} (O : CollapseOracle σ) :
    ℕ → σ → Option ℕ → Option ℕ → List ℕ → Option (COEResult σ)
  | 0, _, _, _, _ => none
  | fuel + 1, st, prevE, eCur, pops =>
    if O.qEmpty st then some ⟨st, eCur, false, false, pops⟩
    else if O.qMin st = Cost.inf then some ⟨st, eCur, false, false, pops⟩
    else
      match O.attempt st with
      | (st', e, ok) =>
        if ok then some ⟨st', some e, true, false, pops ++ [e]⟩
        else if prevE = some e then some ⟨st', some e, false, true, pops ++ [e]⟩
        else collapse_one_edge O fuel st' prevE (some e) (pops ++ [e])

/-- The finite value carried by a queue cost (the branch of the loop that
reads it has already ruled out the infinite case). -/
def Cost.finVal : Cost → ℚ
  | Cost.fin q => q
  | Cost.inf => 0

/-- The result of the `decimate_halfedge_5d` collapse loop: final state,
final `remain_vertices`, the `clean_finish` return flag, whether an
assertion fired inside `collapse_one_edge`, and the outer-loop minimum
cost recorded at each successful collapse (the values whose square roots
feed `max_error`). -/
structure DecResult (σ : Type) where
  st : σ
  remain : ℤ
  cleanFinish : Bool
  aborted : Bool
  costs : List ℚ
deriving DecidableEq, Repr

/-- The collapse loop of `decimate_halfedge_5d` (decimate.cpp lines
285-315), with fuel: while `remain_vertices > target`, break (with
`clean_finish` still true) when the queue is empty or its minimum cost is
infinite, otherwise read the minimum cost, run `collapse_one_edge`, and
on success record the cost and decrement `remain_vertices`; on failure
set `clean_finish = false` and break. -/
def decimate_halfedge_5d_loop {σ : Type} (O : CollapseOracle σ)
    (innerFuel : ℕ) :
    ℕ → σ → ℤ → ℤ → Option ℕ → List ℚ → Option (DecResult σ)
  | 0, _, _, _, _, _ => none
  | fuel + 1, st, remain, target, prevE, costs =>
    if remain ≤ target then some ⟨st, remain, true, false, costs⟩
    else if O.qEmpty st then some ⟨st, remain, true, false, costs⟩
    else if O.qMin st = Cost.inf then some ⟨st, remain, true, false, costs⟩
    else
      match collapse_one_edge O innerFuel st prevE none [] with
      | none => none
      | some r =>
        if r.success then
          decimate_halfedge_5d_loop O innerFuel fuel r.st (remain - 1)
            target
            (match r.lastE with
            | some v => some v
            | none => prevE)
            (costs ++ [Cost.finVal (O.qMin st)])
        else some ⟨r.st, remain, false, r.aborted, costs⟩

/-- `decimate_halfedge_5d` at the level of the collapse loop: start from
the prepared state with `remain_vertices = V.rows()` (the augmented
vertex count) and `prev_e = -1` (modelled as `none`). -/
def decimate_halfedge_5d {σ : Type} (O : CollapseOracle σ)
    (innerFuel fuel : ℕ) (st0 : σ) (nVaug target : ℤ) :
    Option (DecResult σ) :=
  decimate_halfedge_5d_loop O innerFuel fuel st0 nVaug target none []

/-- The per-collapse geometric error of decimate.cpp line 311:
`sqrt(std::max(0.0, cost)) / pos_scale`. -/
noncomputable def per_collapse_error (posScale : ℝ) (c : ℚ) : ℝ :=
  Real.sqrt (max 0 (c : ℝ)) / posScale

/-- The running maximum `current_max_error` of decimate.cpp lines 288 and
311-312, expressed as a fold over the recorded per-collapse costs:
starting from `0.0`, each successful collapse updates the value to the
maximum of its previous value and the per-collapse error. -/
noncomputable def max_error_of (posScale : ℝ) (costs : List ℚ) : ℝ :=
  costs.foldl (fun m c => max m (per_collapse_error posScale c)) 0

/-- The `max_error` out-parameter of `decimate_halfedge_5d` (decimate.cpp
line 317). -/
noncomputable def decimate_max_error {σ : Type} (posScale : ℝ)
    (r : DecResult σ) : ℝ :=
  max_error_of posScale r.costs

/-- A loaded OBJ mesh as the driver sees it. -/
structure ObjMesh where
  V : List Point3
  F : List Tri
  TC : List Point2
  FT : List Tri
deriving DecidableEq, Repr

/-- What the tail of `main` (part_000 lines 294-313) does once
`decimate_down_to` has returned: print the warning exactly when the
returned status is false, build the output path (the generated name when
no custom path was given), write the OBJ, and exit 0 on a successful
write and -1 (through `usage`) on a failed one. -/
structure DriverOutcome where
  warned : Bool
  wrote : Bool
  exitCode : ℤ
  outPath : String
deriving DecidableEq, Repr

/-- The driver epilogue of `main` (part_000 lines 294-313). `errStr` is
the 6-decimal rendering of `final_error` (iostream formatting, external
to the core). -/
def driver_finish (success : Bool) (customPath : Option String)
    (stem : String) (vOutRows : ℕ) (errStr : String) (writeOk : Bool) :
    DriverOutcome :=
  let path :=
    match customPath with
    | some p => p
    | none =>
        stem ++ "-decimated_to_" ++ toString vOutRows ++ "_err_" ++
          errStr ++ ".obj"
  if writeOk then ⟨!success, true, 0, path⟩ else ⟨!success, false, -1, path⟩

/-- The outcome of the target checks of `main` (part_000 lines 263-277):
reject a non-positive target through `usage` (exit -1); when the target
is at least the input vertex count, write the input mesh unchanged to
`<stem>-decimated_to_<nV>_vertices.obj` and return 0; otherwise proceed
to decimation. -/
inductive PreCheck where
  | usageExit
  | earlyWrite (path : String) (mesh : ObjMesh) (exitCode : ℤ)
  | proceed
deriving DecidableEq, Repr

/-- The target checks of `main` (part_000 lines 263-277). -/
def main_precheck (stem : String) (target : ℤ) (mesh : ObjMesh)
    (writeOk : Bool) : PreCheck :=
  if target ≤ 0 then PreCheck.usageExit
  else if (mesh.V.length : ℤ) ≤ target then
    if writeOk then
      PreCheck.earlyWrite
        (stem ++ "-decimated_to_" ++ toString mesh.V.length ++
          "_vertices.obj")
        mesh 0
    else PreCheck.usageExit
  else PreCheck.proceed

/-- The observable result of one whole program run. -/
structure RunOutcome where
  exitCode : ℤ
  warned : Bool
  outPath : Option String
  meshWritten : Option ObjMesh
deriving DecidableEq, Repr

/-- One whole run of the program as a pure function: the target checks of
`main`, then (in the proceed case) preparation, the collapse loop,
`clean_mesh`, and the driver epilogue.  `prep` abstracts
`prepare_decimate_halfedge_5d` (initial collapse state, augmented vertex
count, adjusted target), `tablesOf` reads the final mesh tables out of
the collapse state, and `errFmt` is the 6-decimal error formatting. -/
def runProgram {σ : Type} (O : CollapseOracle σ) (innerFuel fuel : ℕ)
    (stem : String) (customPath : Option String) (target : ℤ)
    (mesh : ObjMesh) (writeOk : Bool) (prep : ObjMesh → σ × ℤ × ℤ)
    (tablesOf : σ → ObjMesh) (nullIdx : ℕ) (errFmt : List ℚ → String) :
    Option RunOutcome :=
  match main_precheck stem target mesh writeOk with
  | PreCheck.usageExit => some ⟨-1, false, none, none⟩
  | PreCheck.earlyWrite p m c => some ⟨c, false, some p, some m⟩
  | PreCheck.proceed =>
    match prep mesh with
    | (st0, nAug, targetAdj) =>
      match decimate_halfedge_5d O innerFuel fuel st0 nAug targetAdj with
      | none => none
      | some r =>
        let tabs := tablesOf r.st
        let cr := clean_mesh nullIdx tabs.V tabs.F tabs.TC tabs.FT
          mesh.F.length
        let d := driver_finish r.cleanFinish customPath stem
          cr.V_out.length (errFmt r.costs) writeOk
        some ⟨d.exitCode, d.warned, some d.outPath,
          some ⟨cr.V_out, cr.F_out, cr.TC_out, cr.FT_out⟩⟩

/-- A collapse state in which every queued edge has infinite cost: the
queue is never empty but its minimum cost is always `+infinity`, so no
collapse is ever attempted.  Realizable per the spec whenever every
remaining candidate collapse is forbidden (for example a single triangle
with `--preserve-boundaries`, where all edges are boundary edges). -/
def infCostOracle : CollapseOracle Unit :=
  ⟨fun _ => false, fun _ => Cost.inf, fun s => (s, 0, false)⟩

/-- A collapse state in which every attempt succeeds at cost 1. -/
def okOracle : CollapseOracle Unit :=
  ⟨fun _ => false, fun _ => Cost.fin 1, fun s => (s, 0, true)⟩

/-- A collapse state (a step counter) whose first two attempts pop edge 3
and fail, after which the minimum cost becomes infinite. -/
def twiceFailOracle : CollapseOracle ℕ :=
  ⟨fun _ => false,
   fun n => if n < 2 then Cost.fin 1 else Cost.inf,
   fun n => (n + 1, 3, false)⟩

/-- A collapse state whose attempt pops edge 5 and fails while the queue
still reports a finite minimum cost. -/
def abortOracle : CollapseOracle Unit :=
  ⟨fun _ => false, fun _ => Cost.fin 1, fun s => (s, 5, false)⟩

/-- A single triangle: three finite vertex positions. -/
def demoV : List Point3 :=
  [(Coord.fin 0, Coord.fin 0, Coord.fin 0),
   (Coord.fin 1, Coord.fin 0, Coord.fin 0),
   (Coord.fin 0, Coord.fin 1, Coord.fin 0)]

/-- Texture coordinates of the single triangle. -/
def demoTC : List Point2 :=
  [(Coord.fin 0, Coord.fin 0), (Coord.fin 1, Coord.fin 0),
   (Coord.fin 0, Coord.fin 1)]

/-- The single triangle face table. -/
def demoF : List Tri := [(0, 1, 2)]

/-- The single triangle as a loaded OBJ mesh. -/
def demoMesh : ObjMesh := ⟨demoV, demoF, demoTC, demoF⟩

/-- The single triangle augmented with its three virtual infinity faces
(infinity vertex 3 at corner 2), as `connect_boundary_to_infinity`
produces them. -/
def demoFaug : List Tri := [(0, 1, 2), (1, 0, 3), (2, 1, 3), (0, 2, 3)]

/-- A texture face table parallel to `demoFaug`. -/
def demoFTaug : List Tri := [(0, 1, 2), (0, 0, 0), (0, 0, 0), (0, 0, 0)]

/-- Five vertices of which only the first three are referenced by the
single triangle; the last two are isolated. -/
def c2OV : List Point3 :=
  [(Coord.fin 0, Coord.fin 0, Coord.fin 0),
   (Coord.fin 1, Coord.fin 0, Coord.fin 0),
   (Coord.fin 0, Coord.fin 1, Coord.fin 0),
   (Coord.fin 2, Coord.fin 2, Coord.fin 0),
   (Coord.fin 3, Coord.fin 3, Coord.fin 0)]

/-- The face table of the five-vertex mesh: a single triangle. -/
def c2OF : List Tri := [(0, 1, 2)]

/-- Texture coordinates for the five-vertex mesh. -/
def c2TC : List Point2 :=
  [(Coord.fin 0, Coord.fin 0), (Coord.fin 1, Coord.fin 0),
   (Coord.fin 0, Coord.fin 1)]

/-- Texture face table for the five-vertex mesh. -/
def c2FT : List Tri := [(0, 1, 2)]

/-- Two faces for the FT-augmentation witness: one real triangle and one
virtual infinity face across the directed edge (1,0), with infinity
vertex 3 at corner 2. -/
def c5F : List Tri := [(0, 1, 2), (1, 0, 3)]

/-- The texture face table before augmentation: the real face references
texture vertices 10, 11, 12. -/
def c5FT : List Tri := [(10, 11, 12), (0, 0, 0)]

/-! Helper lemmas about the compaction pipeline. -/

lemma tombRow_eq_false_iff {nullIdx : ℕ} {t : Tri} :
    tombRow nullIdx t = false ↔
      ¬(t.1 = nullIdx ∧ t.2.1 = nullIdx ∧ t.2.2 = nullIdx) := by
  rw [Bool.eq_false_iff]
  unfold tombRow
  simp [and_assoc]

lemma mem_keptIdx {nullIdx : ℕ} {F : List Tri} {nF f : ℕ} :
    f ∈ keptIdx nullIdx F nF ↔
      f < nF ∧ ∃ t, F.get? f = some t ∧ tombRow nullIdx t = false := by
  unfold keptIdx
  rw [List.mem_filter, List.mem_range]
  constructor
  · rintro ⟨h1, h2⟩
    refine ⟨h1, ?_⟩
    cases hg : F.get? f with
    | none => rw [hg] at h2; simp at h2
    | some t =>
      rw [hg] at h2
      exact ⟨t, rfl, by simpa using h2⟩
  · rintro ⟨h1, t, hg, ht⟩
    refine ⟨h1, ?_⟩
    rw [hg]
    simpa using ht

lemma mem_F2of {nullIdx : ℕ} {F : List Tri} {nF : ℕ} {t : Tri} :
    t ∈ F2of nullIdx F nF ↔
      ∃ f, f ∈ keptIdx nullIdx F nF ∧ F.get? f = some t := by
  unfold F2of
  exact List.mem_filterMap

lemma mem_FT2of {nullIdx : ℕ} {F FT : List Tri} {nF : ℕ} {t : Tri} :
    t ∈ FT2of nullIdx F FT nF ↔
      ∃ f, f ∈ keptIdx nullIdx F nF ∧ FT.get? f = some t := by
  unfold FT2of
  exact List.mem_filterMap

lemma mem_usedVerts {nV v : ℕ} {Fs : List Tri} :
    v ∈ usedVerts nV Fs ↔ v < nV ∧ refsVert Fs v = true := by
  unfold usedVerts
  rw [List.mem_filter, List.mem_range]

lemma refsVert_of_mem {Fs : List Tri} {t : Tri} {v : ℕ} (ht : t ∈ Fs)
    (hv : t.1 = v ∨ t.2.1 = v ∨ t.2.2 = v) : refsVert Fs v = true := by
  unfold refsVert
  rw [List.any_eq_true]
  refine ⟨t, ht, ?_⟩
  rcases hv with h | h | h <;> simp [h]

lemma exists_of_refsVert {Fs : List Tri} {v : ℕ}
    (h : refsVert Fs v = true) :
    ∃ t, t ∈ Fs ∧ (t.1 = v ∨ t.2.1 = v ∨ t.2.2 = v) := by
  unfold refsVert at h
  rw [List.any_eq_true] at h
  obtain ⟨t, ht, hb⟩ := h
  refine ⟨t, ht, ?_⟩
  simpa [or_assoc] using hb

lemma length_filterMap_get? {α : Type} (V : List α) (l : List ℕ)
    (h : ∀ v ∈ l, v < V.length) :
    (l.filterMap (fun v => V.get? v)).length = l.length := by
  induction l with
  | nil => rfl
  | cons v l ih =>
    have hv : v < V.length := h v (by simp)
    have hsome : ∃ a, V.get? v = some a := by
      rw [List.get?_eq_get hv]
      exact ⟨_, rfl⟩
    obtain ⟨a, ha⟩ := hsome
    simp only [List.filterMap_cons, ha, List.length_cons]
    rw [ih (fun x hx => h x (by simp [hx]))]

lemma clean_mesh_V_out (nullIdx : ℕ) (V : List Point3) (F : List Tri)
    (TC : List Point2) (FT : List Tri) (nF : ℕ) :
    (clean_mesh nullIdx V F TC FT nF).V_out =
      (usedVerts V.length (F2of nullIdx F nF)).filterMap
        (fun v => V.get? v) := rfl

lemma clean_mesh_F_out (nullIdx : ℕ) (V : List Point3) (F : List Tri)
    (TC : List Point2) (FT : List Tri) (nF : ℕ) :
    (clean_mesh nullIdx V F TC FT nF).F_out =
      (F2of nullIdx F nF).map
        (reindexTri (usedVerts V.length (F2of nullIdx F nF))) := rfl

lemma clean_mesh_TC_out (nullIdx : ℕ) (V : List Point3) (F : List Tri)
    (TC : List Point2) (FT : List Tri) (nF : ℕ) :
    (clean_mesh nullIdx V F TC FT nF).TC_out =
      (usedVerts TC.length (FT2of nullIdx F FT nF)).filterMap
        (fun v => TC.get? v) := rfl

lemma clean_mesh_FT_out (nullIdx : ℕ) (V : List Point3) (F : List Tri)
    (TC : List Point2) (FT : List Tri) (nF : ℕ) :
    (clean_mesh nullIdx V F TC FT nF).FT_out =
      (FT2of nullIdx F FT nF).map
        (reindexTri (usedVerts TC.length (FT2of nullIdx F FT nF))) := rfl

lemma used_filterMap_length {α : Type} (V : List α) (Fs : List Tri) :
    ((usedVerts V.length Fs).filterMap (fun v => V.get? v)).length =
      (usedVerts V.length Fs).length := by
  apply length_filterMap_get?
  intro v hv
  exact (mem_usedVerts.mp hv).1

lemma corner_mem_usedVerts1 {nV : ℕ} {Fs : List Tri} {t : Tri}
    (ht : t ∈ Fs) (h : t.1 < nV) : t.1 ∈ usedVerts nV Fs :=
  mem_usedVerts.mpr ⟨h, refsVert_of_mem ht (Or.inl rfl)⟩

lemma corner_mem_usedVerts2 {nV : ℕ} {Fs : List Tri} {t : Tri}
    (ht : t ∈ Fs) (h : t.2.1 < nV) : t.2.1 ∈ usedVerts nV Fs :=
  mem_usedVerts.mpr ⟨h, refsVert_of_mem ht (Or.inr (Or.inl rfl))⟩

lemma corner_mem_usedVerts3 {nV : ℕ} {Fs : List Tri} {t : Tri}
    (ht : t ∈ Fs) (h : t.2.2 < nV) : t.2.2 ∈ usedVerts nV Fs :=
  mem_usedVerts.mpr ⟨h, refsVert_of_mem ht (Or.inr (Or.inr rfl))⟩

lemma reindexTri_valid {nV : ℕ} {Fs : List Tri} {t : Tri} (ht : t ∈ Fs)
    (h1 : t.1 < nV) (h2 : t.2.1 < nV) (h3 : t.2.2 < nV) :
    (reindexTri (usedVerts nV Fs) t).1 < (usedVerts nV Fs).length ∧
    (reindexTri (usedVerts nV Fs) t).2.1 < (usedVerts nV Fs).length ∧
    (reindexTri (usedVerts nV Fs) t).2.2 < (usedVerts nV Fs).length := by
  unfold reindexTri
  refine ⟨?_, ?_, ?_⟩
  · exact List.indexOf_lt_length.mpr (corner_mem_usedVerts1 ht h1)
  · exact List.indexOf_lt_length.mpr (corner_mem_usedVerts2 ht h2)
  · exact List.indexOf_lt_length.mpr (corner_mem_usedVerts3 ht h3)

lemma length_le_of_nodup_lt {l : List ℕ} {n : ℕ} (hnd : l.Nodup)
    (h : ∀ v ∈ l, v < n) : l.length ≤ n := by
  classical
  have h1 : l.toFinset ⊆ Finset.range n := by
    intro v hv
    rw [Finset.mem_range]
    exact h v (List.mem_toFinset.mp hv)
  have h2 := Finset.card_le_card h1
  rw [Finset.card_range] at h2
  rwa [List.toFinset_card_of_nodup hnd] at h2

lemma usedVerts_nodup (nV : ℕ) (Fs : List Tri) :
    (usedVerts nV Fs).Nodup :=
  List.Nodup.filter _ (List.nodup_range nV)

lemma clean_V_out_le (nullIdx : ℕ) (V : List Point3) (F : List Tri)
    (TC : List Point2) (FT : List Tri) (nF : ℕ) :
    (clean_mesh nullIdx V F TC FT nF).V_out.length ≤ V.length := by
  rw [clean_mesh_V_out]
  calc ((usedVerts V.length (F2of nullIdx F nF)).filterMap
        (fun v => V.get? v)).length
      ≤ (usedVerts V.length (F2of nullIdx F nF)).length :=
        List.length_filterMap_le _ _
    _ ≤ (List.range V.length).length := List.length_filter_le _ _
    _ = V.length := List.length_range V.length

lemma clean_V_out_le_of_corners (nullIdx : ℕ) (V : List Point3)
    (F : List Tri) (TC : List Point2) (FT : List Tri) (nF nOV : ℕ)
    (h : ∀ t ∈ F2of nullIdx F nF,
      t.1 < nOV ∧ t.2.1 < nOV ∧ t.2.2 < nOV) :
    (clean_mesh nullIdx V F TC FT nF).V_out.length ≤ nOV := by
  rw [clean_mesh_V_out]
  have hsub : ∀ v ∈ usedVerts V.length (F2of nullIdx F nF), v < nOV := by
    intro v hv
    obtain ⟨hvlt, href⟩ := mem_usedVerts.mp hv
    obtain ⟨t, ht, hc⟩ := exists_of_refsVert href
    obtain ⟨h1, h2, h3⟩ := h t ht
    rcases hc with rfl | rfl | rfl
    · exact h1
    · exact h2
    · exact h3
  calc ((usedVerts V.length (F2of nullIdx F nF)).filterMap
        (fun v => V.get? v)).length
      ≤ (usedVerts V.length (F2of nullIdx F nF)).length :=
        List.length_filterMap_le _ _
    _ ≤ nOV := length_le_of_nodup_lt (usedVerts_nodup _ _) hsub

/-! Helper lemmas about the collapse loops. -/


lemma decimate_loop_remain_ge {σ : Type} (O : CollapseOracle σ)
    (iF : ℕ) :
    ∀ (fuel : ℕ) (st : σ) (remain target : ℤ) (prevE : Option ℕ)
      (costs : List ℚ) (r : DecResult σ),
      decimate_halfedge_5d_loop O iF fuel st remain target prevE costs =
        some r →
      target ≤ remain → target ≤ r.remain := by
  intro fuel
  induction fuel with
  | zero =>
    intro st remain target prevE costs r h
    simp [decimate_halfedge_5d_loop] at h
  | succ fuel ih =>
    intro st remain target prevE costs r h hle
    rw [decimate_halfedge_5d_loop] at h
    by_cases h1 : remain ≤ target
    · rw [if_pos h1] at h
      cases h
      exact hle
    · rw [if_neg h1] at h
      by_cases hq : O.qEmpty st = true
      · rw [if_pos hq] at h
        cases h
        exact hle
      · rw [if_neg hq] at h
        by_cases hm : O.qMin st = Cost.inf
        · rw [if_pos hm] at h
          cases h
          exact hle
        · rw [if_neg hm] at h
          cases hc : collapse_one_edge O iF st prevE none [] with
          | none =>
            rw [hc] at h
            exact Option.noConfusion h
          | some r0 =>
            simp only [hc] at h
            by_cases hs : r0.success = true
            · rw [if_pos hs] at h
              exact ih r0.st (remain - 1) target _ _ r h (by omega)
            · rw [if_neg hs] at h
              cases h
              exact hle

lemma decimate_loop_stop_reason {σ : Type} (O : CollapseOracle σ)
    (iF : ℕ) :
    ∀ (fuel : ℕ) (st : σ) (remain target : ℤ) (prevE : Option ℕ)
      (costs : List ℚ) (r : DecResult σ),
      decimate_halfedge_5d_loop O iF fuel st remain target prevE costs =
        some r →
      target < r.remain → r.cleanFinish = true →
      O.qEmpty r.st = true ∨ O.qMin r.st = Cost.inf := by
  intro fuel
  induction fuel with
  | zero =>
    intro st remain target prevE costs r h
    simp [decimate_halfedge_5d_loop] at h
  | succ fuel ih =>
    intro st remain target prevE costs r h hgt hcf
    rw [decimate_halfedge_5d_loop] at h
    by_cases h1 : remain ≤ target
    · rw [if_pos h1] at h
      cases h
      exact absurd h1 (not_le.mpr hgt)
    · rw [if_neg h1] at h
      by_cases hq : O.qEmpty st = true
      · rw [if_pos hq] at h
        cases h
        exact Or.inl hq
      · rw [if_neg hq] at h
        by_cases hm : O.qMin st = Cost.inf
        · rw [if_pos hm] at h
          cases h
          exact Or.inr hm
        · rw [if_neg hm] at h
          cases hc : collapse_one_edge O iF st prevE none [] with
          | none =>
            rw [hc] at h
            exact Option.noConfusion h
          | some r0 =>
            simp only [hc] at h
            by_cases hs : r0.success = true
            · rw [if_pos hs] at h
              exact ih r0.st (remain - 1) target _ _ r h hgt hcf
            · rw [if_neg hs] at h
              cases h
              simp at hcf

lemma collapse_one_edge_abort {σ : Type} (O : CollapseOracle σ) :
    ∀ (fuel : ℕ) (st : σ) (prevE eCur : Option ℕ) (pops : List ℕ)
      (r : COEResult σ),
      collapse_one_edge O fuel st prevE eCur pops = some r →
      r.aborted = true →
      r.lastE = prevE ∧ r.pops.getLast? = prevE ∧ r.success = false := by
  intro fuel
  induction fuel with
  | zero =>
    intro st prevE eCur pops r h
    simp [collapse_one_edge] at h
  | succ fuel ih =>
    intro st prevE eCur pops r h hab
    rw [collapse_one_edge] at h
    by_cases hq : O.qEmpty st = true
    · rw [if_pos hq] at h
      cases h
      exact absurd hab (by simp)
    · rw [if_neg hq] at h
      by_cases hm : O.qMin st = Cost.inf
      · rw [if_pos hm] at h
        cases h
        exact absurd hab (by simp)
      · rw [if_neg hm] at h
        rcases hatt : O.attempt st with ⟨st', e, ok⟩
        simp only [hatt] at h
        by_cases hok : ok = true
        · rw [if_pos hok] at h
          cases h
          exact absurd hab (by simp)
        · rw [if_neg hok] at h
          by_cases hpe : prevE = some e
          · rw [if_pos hpe] at h
            cases h
            refine ⟨hpe.symm, ?_, rfl⟩
            rw [List.getLast?_concat]
            exact hpe.symm
          · rw [if_neg hpe] at h
            exact ih st' prevE (some e) (pops ++ [e]) r h hab

/-! Helper lemmas about the running maximum error and the boundary
augmentation. -/

lemma le_foldl_max (posScale : ℝ) (l : List ℚ) :
    ∀ a : ℝ,
      a ≤ l.foldl (fun m c => max m (per_collapse_error posScale c)) a := by
  induction l with
  | nil =>
    intro a
    simp
  | cons c l ih =>
    intro a
    rw [List.foldl_cons]
    exact le_trans (le_max_left a (per_collapse_error posScale c)) (ih _)

lemma max_error_of_nonneg (posScale : ℝ) (costs : List ℚ) :
    0 ≤ max_error_of posScale costs :=
  le_foldl_max posScale costs 0

lemma max_error_of_append (posScale : ℝ) (l : List ℚ) (c : ℚ) :
    max_error_of posScale (l ++ [c]) =
      max (max_error_of posScale l) (per_collapse_error posScale c) := by
  unfold max_error_of
  rw [List.foldl_append]
  rfl

lemma max_error_of_take_mono (posScale : ℝ) (l : List ℚ) (k : ℕ) :
    max_error_of posScale (l.take k) ≤
      max_error_of posScale (l.take (k + 1)) := by
  rw [List.take_succ]
  cases hg : l[k]? with
  | none =>
    simp
  | some c =>
    simp only [Option.toList]
    rw [max_error_of_append]
    exact le_max_left _ _

lemma connect_boundary_eq_of_boundary {OV : List Point3} {OF : List Tri}
    (hb : boundaryDirEdges OF ≠ []) :
    connect_boundary_to_infinity OV OF =
      (OV ++ [(Coord.inf, Coord.inf, Coord.inf)],
       OF ++ (boundaryDirEdges OF).map (fun e => (e.2, e.1, OV.length))) := by
  unfold connect_boundary_to_infinity
  have hbe : (boundaryDirEdges OF).isEmpty = false := by
    cases hB : boundaryDirEdges OF with
    | nil => exact absurd hB hb
    | cons a l => rfl
  simp [hbe]

lemma hasInfinityVertex_of_boundary {OV : List Point3} {OF : List Tri}
    (hb : boundaryDirEdges OF ≠ []) :
    hasInfinityVertex (connect_boundary_to_infinity OV OF).1 = true := by
  rw [connect_boundary_eq_of_boundary hb]
  unfold hasInfinityVertex
  rw [List.getLast?_concat]
  rfl

lemma prepare_target_of_boundary {OV : List Point3} {OF : List Tri}
    (hb : boundaryDirEdges OF ≠ []) (target : ℤ) :
    prepare_target_num_vertices OV OF target = target + 1 := by
  unfold prepare_target_num_vertices
  rw [hasInfinityVertex_of_boundary hb]
  rfl

lemma F2of_provenance {nullIdx : ℕ} {F : List Tri} {nF : ℕ} {t : Tri}
    (ht : t ∈ F2of nullIdx F nF) :
    ∃ f, f < nF ∧ F.get? f = some t ∧ tombRow nullIdx t = false := by
  obtain ⟨f, hk, hg⟩ := mem_F2of.mp ht
  obtain ⟨hlt, t0, hg0, htf⟩ := mem_keptIdx.mp hk
  have heq : t0 = t := by
    rw [hg0] at hg
    exact Option.some.inj hg
  subst heq
  exact ⟨f, hlt, hg0, htf⟩

lemma FT2of_provenance {nullIdx : ℕ} {F FT : List Tri} {nF : ℕ} {t : Tri}
    (ht : t ∈ FT2of nullIdx F FT nF) :
    ∃ f, f < nF ∧ FT.get? f = some t ∧
      ∃ t0, F.get? f = some t0 ∧ tombRow nullIdx t0 = false := by
  obtain ⟨f, hk, hg⟩ := mem_FT2of.mp ht
  obtain ⟨hlt, t0, hg0, htf⟩ := mem_keptIdx.mp hk
  exact ⟨f, hlt, hg, t0, hg0, htf⟩

/-! The claims. -/

/-- C10: `clean_mesh` copies face row `f` (for `0 <= f < nF`) into the
compacted table exactly when at least one of its three `F` corners
differs from the null sentinel; every compacted row originates from a row
of index below `nF`, so the virtual infinity faces are never considered;
in particular a row with one or two (but not three) null corners is
kept. -/
theorem c10_theorem (nullIdx : ℕ) (F : List Tri) (nF : ℕ) :
    (∀ f t, f < nF → F.get? f = some t →
      (f ∈ keptIdx nullIdx F nF ↔
        ¬(t.1 = nullIdx ∧ t.2.1 = nullIdx ∧ t.2.2 = nullIdx))) ∧
    (∀ t, t ∈ F2of nullIdx F nF →
      ∃ f, f < nF ∧ F.get? f = some t ∧
        ¬(t.1 = nullIdx ∧ t.2.1 = nullIdx ∧ t.2.2 = nullIdx)) ∧
    (∀ f t, f < nF → F.get? f = some t →
      ¬(t.1 = nullIdx ∧ t.2.1 = nullIdx ∧ t.2.2 = nullIdx) →
      t ∈ F2of nullIdx F nF) := by
  refine ⟨?_, ?_, ?_⟩
  · intro f t hf hg
    constructor
    · intro hk
      obtain ⟨_, t0, hg0, htf⟩ := mem_keptIdx.mp hk
      have heq : t0 = t := by
        rw [hg0] at hg
        exact Option.some.inj hg
      subst heq
      exact tombRow_eq_false_iff.mp htf
    · intro hnt
      exact mem_keptIdx.mpr ⟨hf, t, hg, tombRow_eq_false_iff.mpr hnt⟩
  · intro t ht
    obtain ⟨f, hf, hg, htf⟩ := F2of_provenance ht
    exact ⟨f, hf, hg, tombRow_eq_false_iff.mp htf⟩
  · intro f t hf hg hnt
    exact mem_F2of.mpr
      ⟨f, mem_keptIdx.mpr ⟨hf, t, hg, tombRow_eq_false_iff.mpr hnt⟩, hg⟩

/-- C10 witness: a face whose corners are (null, 5, null) with null
sentinel 0 is kept by the compaction filter. -/
theorem c10_witness :
    ((0 : ℕ), (5 : ℕ), (0 : ℕ)) ∈ F2of 0 [((0 : ℕ), (5 : ℕ), (0 : ℕ))] 1 :=
  (c10_theorem 0 [(0, 5, 0)] 1).2.2 0 (0, 5, 0) (by decide) (by decide)
    (by decide)

/-- C8: under the all-or-nothing tombstone invariant (spec section 3,
invariant 1, together with the in-range conditions the `clean_mesh`
assertions presuppose), every corner of every live output face indexes a
valid row of `V_out` respectively `TC_out`, and no surviving row carries
the null sentinel at any corner. -/
theorem c8_theorem (nullIdx : ℕ) (V : List Point3) (TC : List Point2)
    (F FT : List Tri) (nF : ℕ) (hlen : nF ≤ FT.length)
    (hinv : ∀ f t t', f < nF → F.get? f = some t → FT.get? f = some t' →
      (t.1 = nullIdx ∧ t.2.1 = nullIdx ∧ t.2.2 = nullIdx) ∨
      (t.1 < V.length ∧ t.2.1 < V.length ∧ t.2.2 < V.length ∧
        t.1 ≠ nullIdx ∧ t.2.1 ≠ nullIdx ∧ t.2.2 ≠ nullIdx ∧
        t'.1 < TC.length ∧ t'.2.1 < TC.length ∧ t'.2.2 < TC.length ∧
        t'.1 ≠ nullIdx ∧ t'.2.1 ≠ nullIdx ∧ t'.2.2 ≠ nullIdx)) :
    (∀ t, t ∈ (clean_mesh nullIdx V F TC FT nF).F_out →
      t.1 < (clean_mesh nullIdx V F TC FT nF).V_out.length ∧
      t.2.1 < (clean_mesh nullIdx V F TC FT nF).V_out.length ∧
      t.2.2 < (clean_mesh nullIdx V F TC FT nF).V_out.length) ∧
    (∀ t, t ∈ (clean_mesh nullIdx V F TC FT nF).FT_out →
      t.1 < (clean_mesh nullIdx V F TC FT nF).TC_out.length ∧
      t.2.1 < (clean_mesh nullIdx V F TC FT nF).TC_out.length ∧
      t.2.2 < (clean_mesh nullIdx V F TC FT nF).TC_out.length) ∧
    (∀ t, t ∈ F2of nullIdx F nF →
      t.1 ≠ nullIdx ∧ t.2.1 ≠ nullIdx ∧ t.2.2 ≠ nullIdx) ∧
    (∀ t, t ∈ FT2of nullIdx F FT nF →
      t.1 ≠ nullIdx ∧ t.2.1 ≠ nullIdx ∧ t.2.2 ≠ nullIdx) := by
  have hF2 : ∀ t, t ∈ F2of nullIdx F nF →
      (t.1 < V.length ∧ t.2.1 < V.length ∧ t.2.2 < V.length) ∧
      (t.1 ≠ nullIdx ∧ t.2.1 ≠ nullIdx ∧ t.2.2 ≠ nullIdx) := by
    intro t ht
    obtain ⟨f, hlt, hg, htf⟩ := F2of_provenance ht
    have hf2 : f < FT.length := lt_of_lt_of_le hlt hlen
    obtain ⟨t', hg'⟩ : ∃ t', FT.get? f = some t' := by
      rw [List.get?_eq_get hf2]
      exact ⟨_, rfl⟩
    rcases hinv f t t' hlt hg hg' with hnull | hok
    · rw [tombRow_eq_false_iff] at htf
      exact absurd hnull htf
    · obtain ⟨a1, a2, a3, a4, a5, a6, _, _, _, _, _, _⟩ := hok
      exact ⟨⟨a1, a2, a3⟩, a4, a5, a6⟩
  have hFT2 : ∀ t, t ∈ FT2of nullIdx F FT nF →
      (t.1 < TC.length ∧ t.2.1 < TC.length ∧ t.2.2 < TC.length) ∧
      (t.1 ≠ nullIdx ∧ t.2.1 ≠ nullIdx ∧ t.2.2 ≠ nullIdx) := by
    intro t ht
    obtain ⟨f, hlt, hg, t0, hg0, htf⟩ := FT2of_provenance ht
    rcases hinv f t0 t hlt hg0 hg with hnull | hok
    · rw [tombRow_eq_false_iff] at htf
      exact absurd hnull htf
    · obtain ⟨_, _, _, _, _, _, b1, b2, b3, b4, b5, b6⟩ := hok
      exact ⟨⟨b1, b2, b3⟩, b4, b5, b6⟩
  refine ⟨?_, ?_, fun t ht => (hF2 t ht).2, fun t ht => (hFT2 t ht).2⟩
  · intro t ht
    rw [clean_mesh_F_out] at ht
    rw [List.mem_map] at ht
    obtain ⟨t0, ht0, rfl⟩ := ht
    obtain ⟨⟨h1, h2, h3⟩, _⟩ := hF2 t0 ht0
    rw [clean_mesh_V_out, used_filterMap_length]
    exact reindexTri_valid ht0 h1 h2 h3
  · intro t ht
    rw [clean_mesh_FT_out] at ht
    rw [List.mem_map] at ht
    obtain ⟨t0, ht0, rfl⟩ := ht
    obtain ⟨⟨h1, h2, h3⟩, _⟩ := hFT2 t0 ht0
    rw [clean_mesh_TC_out, used_filterMap_length]
    exact reindexTri_valid ht0 h1 h2 h3

/-- C8 witness: on a one-triangle mesh with null sentinel 7, the single
output face row indexes valid rows of the compacted vertex table. -/
theorem c8_witness :
    ((0 : ℕ), (1 : ℕ), (2 : ℕ)).1 <
      (clean_mesh 7 demoV demoF demoTC demoF 1).V_out.length ∧
    ((0 : ℕ), (1 : ℕ), (2 : ℕ)).2.1 <
      (clean_mesh 7 demoV demoF demoTC demoF 1).V_out.length ∧
    ((0 : ℕ), (1 : ℕ), (2 : ℕ)).2.2 <
      (clean_mesh 7 demoV demoF demoTC demoF 1).V_out.length :=
  (c8_theorem 7 demoV demoTC demoF demoF 1 (by decide)
    (by
      intro f t t' hf hgt hgt'
      have hf0 : f = 0 := Nat.lt_one_iff.mp hf
      subst hf0
      have ht : t = (0, 1, 2) := by
        have : some ((0 : ℕ), (1 : ℕ), (2 : ℕ)) = some t := by
          simpa [demoF] using hgt
        exact (Option.some.inj this).symm
      have ht' : t' = (0, 1, 2) := by
        have : some ((0 : ℕ), (1 : ℕ), (2 : ℕ)) = some t' := by
          simpa [demoF] using hgt'
        exact (Option.some.inj this).symm
      subst ht
      subst ht'
      right
      refine ⟨by decide, by decide, by decide, by decide, by decide,
        by decide, by decide, by decide, by decide, by decide, by decide,
        by decide⟩)).1
    (0, 1, 2) (by decide)

/-- C2 (amended): the collapse loop itself guarantees
`target_num_vertices <= remain_vertices` at exit, and the cleaned output
has at most `V.rows()` vertices (at most the original vertex count when
no surviving face references the artificial infinity vertex); the lower
bound `target_num_vertices <= V_out.rows()` concerns the loop counter
only and can fail for the cleaned table, because
`remove_unreferenced` also drops vertices that no surviving face
references. -/
theorem c2_theorem {σ : Type} (O : CollapseOracle σ) (innerFuel fuel : ℕ)
    (st0 : σ) (nVaug target : ℤ) (r : DecResult σ)
    (hrun : decimate_halfedge_5d O innerFuel fuel st0 nVaug target = some r)
    (htgt : target ≤ nVaug) (nullIdx : ℕ) (V : List Point3)
    (TC : List Point2) (F FT : List Tri) (nF nOV : ℕ)
    (hcor : ∀ t ∈ F2of nullIdx F nF,
      t.1 < nOV ∧ t.2.1 < nOV ∧ t.2.2 < nOV) :
    target ≤ r.remain ∧
    (clean_mesh nullIdx V F TC FT nF).V_out.length ≤ V.length ∧
    (clean_mesh nullIdx V F TC FT nF).V_out.length ≤ nOV := by
  refine ⟨?_, clean_V_out_le nullIdx V F TC FT nF,
    clean_V_out_le_of_corners nullIdx V F TC FT nF nOV hcor⟩
  exact decimate_loop_remain_ge O innerFuel fuel st0 nVaug target none []
    r hrun htgt

/-- C2 witness: a run of the loop on the augmented single triangle ends
with at least the target number of remaining vertices, and the cleaned
output has at most as many vertices as the input. -/
theorem c2_witness :
    (4 : ℤ) ≤ (⟨(), 6, true, false, []⟩ : DecResult Unit).remain ∧
    (clean_mesh 0 (demoV ++ [(Coord.inf, Coord.inf, Coord.inf)]) demoFaug
      demoTC demoFTaug 1).V_out.length ≤
      (demoV ++ [(Coord.inf, Coord.inf, Coord.inf)]).length ∧
    (clean_mesh 0 (demoV ++ [(Coord.inf, Coord.inf, Coord.inf)]) demoFaug
      demoTC demoFTaug 1).V_out.length ≤ 3 :=
  c2_theorem infCostOracle 5 10 () 6 4 ⟨(), 6, true, false, []⟩
    (by decide) (by decide) 0
    (demoV ++ [(Coord.inf, Coord.inf, Coord.inf)]) demoTC demoFaug
    demoFTaug 1 3 (by decide)

/-- C2 counterexample: a five-vertex mesh whose single triangle
references only three vertices, with the valid target 4 (0 < 4 < 5).
After boundary augmentation (target becomes 5, six vertices) the loop
stops at once because every queued cost is infinite, and the cleaned
output has only 3 vertices: the claimed bound
`target_num_vertices <= V_out.rows()` fails. -/
theorem c2_counterexample :
    (0 : ℤ) < 4 ∧ (4 : ℤ) < (c2OV.length : ℤ) ∧
    prepare_target_num_vertices c2OV c2OF 4 = 5 ∧
    ((connect_boundary_to_infinity c2OV c2OF).1.length : ℤ) = 6 ∧
    decimate_halfedge_5d infCostOracle 5 10 () 6 5 =
      some ⟨(), 6, true, false, []⟩ ∧
    (clean_mesh 0 (connect_boundary_to_infinity c2OV c2OF).1
      (connect_boundary_to_infinity c2OV c2OF).2 c2TC c2FT
      c2OF.length).V_out.length = 3 ∧
    ¬((4 : ℤ) ≤ ((clean_mesh 0 (connect_boundary_to_infinity c2OV c2OF).1
      (connect_boundary_to_infinity c2OV c2OF).2 c2TC c2FT
      c2OF.length).V_out.length : ℤ)) := by decide

/-- C1 (amended): when the collapse loop of `decimate_halfedge_5d` stops
with more remaining vertices than the target, the queue at exit is empty
or has an infinite minimum cost whenever the returned status is true; the
status is false exactly when the failure was discovered inside
`collapse_one_edge`; in either case the driver writes the
partially-decimated mesh and exits 0 (when the write succeeds), and it
prints the warning exactly when the returned status is false — a success
status, as returned on the top-of-loop infinity check, produces no
warning. -/
theorem c1_theorem {σ : Type} (O : CollapseOracle σ) (innerFuel fuel : ℕ)
    (st0 : σ) (nVaug target : ℤ) (r : DecResult σ)
    (hrun : decimate_halfedge_5d O innerFuel fuel st0 nVaug target = some r)
    (hrem : target < r.remain) (hnoabort : r.aborted = false)
    (stem errStr : String) (customPath : Option String) (vOutRows : ℕ) :
    (r.cleanFinish = true →
      O.qEmpty r.st = true ∨ O.qMin r.st = Cost.inf) ∧
    (driver_finish r.cleanFinish customPath stem vOutRows errStr
      true).exitCode = 0 ∧
    (driver_finish r.cleanFinish customPath stem vOutRows errStr
      true).wrote = true ∧
    ((driver_finish r.cleanFinish customPath stem vOutRows errStr
      true).warned = true ↔ r.cleanFinish = false) := by
  refine ⟨fun hcf => decimate_loop_stop_reason O innerFuel fuel st0 nVaug
    target none [] r hrun hrem hcf, ?_, ?_, ?_⟩
  · simp [driver_finish]
  · simp [driver_finish]
  · simp [driver_finish]

/-- C1 witness: instantiation of the amended statement on a run that
stops at the top-of-loop infinity check. -/
theorem c1_witness :
    ((⟨(), 5, true, false, []⟩ : DecResult Unit).cleanFinish = true →
      infCostOracle.qEmpty () = true ∨ infCostOracle.qMin () = Cost.inf) ∧
    (driver_finish (⟨(), 5, true, false, []⟩ : DecResult Unit).cleanFinish
      none "m" 3 "0.000000" true).exitCode = 0 ∧
    (driver_finish (⟨(), 5, true, false, []⟩ : DecResult Unit).cleanFinish
      none "m" 3 "0.000000" true).wrote = true ∧
    ((driver_finish (⟨(), 5, true, false, []⟩ : DecResult Unit).cleanFinish
      none "m" 3 "0.000000" true).warned = true ↔
      (⟨(), 5, true, false, []⟩ : DecResult Unit).cleanFinish = false) :=
  c1_theorem infCostOracle 5 10 () 5 2 ⟨(), 5, true, false, []⟩
    (by decide) (by decide) (by decide) "m" "0.000000" none 3

/-- C1 counterexample: a loop that terminates with remaining vertices
above the target because the minimum queued cost is infinite returns the
SUCCESS status true, so the driver does not warn; the claim that this
infeasible termination produces a failure status is false. -/
theorem c1_counterexample :
    decimate_halfedge_5d infCostOracle 5 10 () 5 2 =
      some ⟨(), 5, true, false, []⟩ ∧
    (2 : ℤ) < (⟨(), 5, true, false, []⟩ : DecResult Unit).remain ∧
    infCostOracle.qMin () = Cost.inf ∧
    (⟨(), 5, true, false, []⟩ : DecResult Unit).cleanFinish = true ∧
    (driver_finish true none "mesh" 3 "0.000000" true).warned = false ∧
    (driver_finish true none "mesh" 3 "0.000000" true).exitCode = 0 := by
  refine ⟨by decide, by decide, by decide, by decide, rfl, rfl⟩

/-- C9 (amended): the progress assertion in `collapse_one_edge` fires
exactly when a FAILED collapse attempt pops the edge recorded in
`prev_e`, the last edge popped by the previous invocation; on abort the
last popped edge equals `prev_e` and no collapse succeeded.  Consecutive
failed pops of one and the same (other) edge within a single invocation
do not update `prev_e` and do not abort. -/
theorem c9_theorem {σ : Type} (O : CollapseOracle σ) (fuel : ℕ) (st : σ)
    (prevE : Option ℕ) (r : COEResult σ)
    (h : collapse_one_edge O fuel st prevE none [] = some r)
    (hab : r.aborted = true) :
    r.lastE = prevE ∧ r.pops.getLast? = prevE ∧ r.success = false :=
  collapse_one_edge_abort O fuel st prevE none [] r h hab

/-- C9 witness: with `prev_e = 5`, an invocation whose first attempt pops
edge 5 and fails aborts, and the aborting pop equals `prev_e`. -/
theorem c9_witness :
    (⟨(), some 5, false, true, [5]⟩ : COEResult Unit).lastE = some 5 ∧
    (⟨(), some 5, false, true, [5]⟩ : COEResult Unit).pops.getLast? =
      some 5 ∧
    (⟨(), some 5, false, true, [5]⟩ : COEResult Unit).success = false :=
  c9_theorem abortOracle 3 () (some 5) ⟨(), some 5, false, true, [5]⟩
    (by decide) (by decide)

/-- C9 counterexample: with `prev_e = 5`, an invocation that pops edge 3
twice in a row, both collapse attempts failing (no structural change in
between), does NOT abort: it exits gracefully once the minimum cost
becomes infinite, because `prev_e` is only updated between
invocations. -/
theorem c9_counterexample :
    collapse_one_edge twiceFailOracle 10 0 (some 5) none [] =
      some ⟨2, some 3, false, false, [3, 3]⟩ ∧
    (⟨2, some 3, false, false, [3, 3]⟩ : COEResult ℕ).aborted = false ∧
    (⟨2, some 3, false, false, [3, 3]⟩ : COEResult ℕ).success = false := by
  refine ⟨by decide, rfl, rfl⟩

/-- C6: the reported `max_error` is nonnegative and monotonically
nondecreasing across the collapse sequence: it starts from 0 and each
successful collapse updates it to the maximum of its previous value and
the per-collapse error `sqrt(max(0, cost)) / pos_scale`. -/
theorem c6_theorem {σ : Type} (O : CollapseOracle σ) (innerFuel fuel : ℕ)
    (st0 : σ) (nVaug target : ℤ) (r : DecResult σ) (posScale : ℝ)
    (hrun : decimate_halfedge_5d O innerFuel fuel st0 nVaug target = some r)
    (k : ℕ) :
    0 ≤ decimate_max_error posScale r ∧
    max_error_of posScale (r.costs.take k) ≤
      max_error_of posScale (r.costs.take (k + 1)) ∧
    max_error_of posScale ([] : List ℚ) = 0 ∧
    (∀ (l : List ℚ) (c : ℚ),
      max_error_of posScale (l ++ [c]) =
        max (max_error_of posScale l) (per_collapse_error posScale c)) :=
  ⟨max_error_of_nonneg posScale r.costs,
    max_error_of_take_mono posScale r.costs k, rfl,
    fun l c => max_error_of_append posScale l c⟩

/-- C6 witness: instantiation on a run that performs one successful
collapse of cost 1. -/
theorem c6_witness :
    0 ≤ decimate_max_error 1 (⟨(), 4, true, false, [1]⟩ : DecResult Unit) ∧
    max_error_of 1 (([1] : List ℚ).take 0) ≤
      max_error_of 1 (([1] : List ℚ).take (0 + 1)) ∧
    max_error_of 1 ([] : List ℚ) = 0 ∧
    (∀ (l : List ℚ) (c : ℚ),
      max_error_of 1 (l ++ [c]) =
        max (max_error_of 1 l) (per_collapse_error 1 c)) :=
  c6_theorem okOracle 5 10 () 5 4 ⟨(), 4, true, false, [1]⟩ 1 (by decide) 0

/-- C4: on a mesh with boundary and finite vertex coordinates,
`prepare_decimate_halfedge_5d` detects the appended infinity vertex and
increments the target by exactly one, and after compaction no virtual
face survives (every output face stems from a row below `OF.rows()`) and
the infinity vertex is gone (every output vertex is a row of `OV`, with
finite coordinates), provided the surviving face rows reference only
original vertices. -/
theorem c4_theorem (OV : List Point3) (OF : List Tri) (target : ℤ)
    (hb : boundaryDirEdges OF ≠ [])
    (hfin : ∀ p ∈ OV, minCoeff3 p ≠ Coord.inf) (nullIdx : ℕ)
    (F FT : List Tri) (TC : List Point2)
    (hcor : ∀ t ∈ F2of nullIdx F OF.length,
      t.1 < OV.length ∧ t.2.1 < OV.length ∧ t.2.2 < OV.length) :
    prepare_target_num_vertices OV OF target = target + 1 ∧
    hasInfinityVertex (connect_boundary_to_infinity OV OF).1 = true ∧
    (∀ t ∈ F2of nullIdx F OF.length,
      ∃ f, f < OF.length ∧ F.get? f = some t) ∧
    (∀ p ∈ (clean_mesh nullIdx (connect_boundary_to_infinity OV OF).1 F TC
      FT OF.length).V_out, p ∈ OV ∧ minCoeff3 p ≠ Coord.inf) := by
  refine ⟨prepare_target_of_boundary hb target,
    hasInfinityVertex_of_boundary hb, ?_, ?_⟩
  · intro t ht
    obtain ⟨f, hf, hg, _⟩ := F2of_provenance ht
    exact ⟨f, hf, hg⟩
  · intro p hp
    rw [clean_mesh_V_out] at hp
    rw [List.mem_filterMap] at hp
    obtain ⟨v, hv, hget⟩ := hp
    obtain ⟨hvlt, href⟩ := mem_usedVerts.mp hv
    obtain ⟨t, htF2, hc⟩ := exists_of_refsVert href
    obtain ⟨h1, h2, h3⟩ := hcor t htF2
    have hvOV : v < OV.length := by
      rcases hc with rfl | rfl | rfl
      · exact h1
      · exact h2
      · exact h3
    have hgetOV : (connect_boundary_to_infinity OV OF).1.get? v =
        OV.get? v := by
      rw [connect_boundary_eq_of_boundary hb]
      exact List.get?_append hvOV
    rw [hgetOV] at hget
    have hmem : p ∈ OV := List.get?_mem hget
    exact ⟨hmem, hfin p hmem⟩

/-- C4 witness: on the single triangle (which has a boundary), the target
9 is adjusted to 10. -/
theorem c4_witness :
    prepare_target_num_vertices demoV demoF 9 = 10 :=
  (c4_theorem demoV demoF 9 (by decide) (by decide) 7 demoFaug demoFTaug
    demoTC (by decide)).1

/-- C5: for a virtual infinity face `fi` (infinity vertex at corner 2),
the FT row built by `prepare_decimate_halfedge_5d` carries the new
UV-infinity index `OTC.rows()` at corner 2, and at corners 0 and 1 the UV
vertices of the opposite real face taken at the corners that hold the
same position vertices `F(fi,0)` and `F(fi,1)` — given the assertions of
the code (the matching corner exists) and the opposite-orientation
property of the shared edge that the code relies on. -/
theorem c5_theorem (F FT : List Tri) (nOF nTC : ℕ) (EMAP : ℕ → ℕ)
    (EF : ℕ → ℕ × ℕ) (fi : ℕ) (h1 : nOF ≤ fi) (h2 : fi < F.length)
    (fiRow fo fto : Tri) (hfi : F.get? fi = some fiRow)
    (hfo : F.get? (oppositeFace EMAP EF F.length fi) = some fo)
    (hfto : FT.get? (oppositeFace EMAP EF F.length fi) = some fto)
    (v1 : ℕ)
    (hv1 : (List.range 3).find?
      (fun k => decide (corner fo k = corner fiRow 0)) = some v1)
    (horient : corner fo ((v1 + 2) % 3) = corner fiRow 1) :
    (prepare_infinity_FT F FT nOF nTC EMAP EF).get? fi =
      some (corner fto v1, corner fto ((v1 + 2) % 3), nTC) ∧
    corner fo v1 = corner fiRow 0 ∧
    corner fo ((v1 + 2) % 3) = corner fiRow 1 ∧
    corner (corner fto v1, corner fto ((v1 + 2) % 3), nTC) 2 = nTC := by
  have hp := List.find?_some hv1
  have hfind : corner fo v1 = corner fiRow 0 := of_decide_eq_true hp
  refine ⟨?_, hfind, horient, rfl⟩
  unfold prepare_infinity_FT
  rw [List.get?_map, List.get?_range h2]
  simp only [Option.map_some']
  rw [if_neg (Nat.not_lt.mpr h1)]
  simp only [hfo, hfto, hfi]
  unfold infinityFTRow
  simp only [hv1]
  rfl

/-- C5 witness: the virtual face (1,0,3) opposite the real face (0,1,2)
with UV row (10,11,12) receives the FT row (11,10,13): UV 11 sits at the
corner of position vertex 1 = F(fi,0), UV 10 at the corner of position
vertex 0 = F(fi,1), and 13 is the UV-infinity index. -/
theorem c5_witness :
    (prepare_infinity_FT c5F c5FT 1 13 (fun _ => 0)
      (fun _ => (1, 0))).get? 1 = some (11, 10, 13) :=
  (c5_theorem c5F c5FT 1 13 (fun _ => 0) (fun _ => (1, 0)) 1 (by decide)
    (by decide) (1, 0, 3) (0, 1, 2) (10, 11, 12) (by decide) (by decide)
    (by decide) 1 (by decide) (by decide)).1

/-- C7: when the requested target is positive and at least the input
vertex count, `main` takes the early branch: it writes the input mesh
unchanged to `<stem>-decimated_to_<nV>_vertices.obj` and returns exit
code 0. -/
theorem c7_theorem (stem : String) (target : ℤ) (mesh : ObjMesh)
    (hpos : 0 < target) (hge : (mesh.V.length : ℤ) ≤ target) :
    main_precheck stem target mesh true =
      PreCheck.earlyWrite
        (stem ++ "-decimated_to_" ++ toString mesh.V.length ++
          "_vertices.obj") mesh 0 := by
  unfold main_precheck
  rw [if_neg (not_le.mpr hpos), if_pos hge, if_pos rfl]

/-- C7 witness: requesting 5 vertices on the 3-vertex triangle writes the
input unchanged to the renamed file and exits 0. -/
theorem c7_witness :
    (0 : ℤ) < 5 ∧
    main_precheck "m" 5 demoMesh true =
      PreCheck.earlyWrite "m-decimated_to_3_vertices.obj" demoMesh 0 :=
  ⟨by decide, c7_theorem "m" 5 demoMesh (by decide) (by decide)⟩

/-- C3: the program run is a pure function of the input mesh and the
configuration, so two runs over the same input and configuration produce
the same outcome (output path, written mesh, warning, exit code). -/
theorem c3_theorem {σ : Type} (O : CollapseOracle σ) (innerFuel fuel : ℕ)
    (stem : String) (customPath : Option String) (target : ℤ)
    (mesh : ObjMesh) (writeOk : Bool) (prep : ObjMesh → σ × ℤ × ℤ)
    (tablesOf : σ → ObjMesh) (nullIdx : ℕ) (errFmt : List ℚ → String)
    (r1 r2 : Option RunOutcome)
    (h1 : r1 = runProgram O innerFuel fuel stem customPath target mesh
      writeOk prep tablesOf nullIdx errFmt)
    (h2 : r2 = runProgram O innerFuel fuel stem customPath target mesh
      writeOk prep tablesOf nullIdx errFmt) : r1 = r2 :=
  h1.trans h2.symm

/-- C3 witness: two concrete runs of the modelled program agree. -/
theorem c3_witness :
    runProgram infCostOracle 5 10 "m" none 4 demoMesh true
      (fun _ => ((), 4, 4)) (fun _ => demoMesh) 0 (fun _ => "0") =
    runProgram infCostOracle 5 10 "m" none 4 demoMesh true
      (fun _ => ((), 4, 4)) (fun _ => demoMesh) 0 (fun _ => "0") :=
  c3_theorem infCostOracle 5 10 "m" none 4 demoMesh true
    (fun _ => ((), 4, 4)) (fun _ => demoMesh) 0 (fun _ => "0") _ _ rfl rfl
